import Mathlib

/-!
Verification of the `rag_agent` retrieval-augmented generation pipeline.

This file gives a shallow embedding, in Lean 4, of the parts of the
repository that claims of the specification are about:

* `src/rag_agent/chunking.py`   — sentence splitting and token-window chunking
* `src/rag_agent/retrieval.py`  — similarity search over the vector store
* `src/rag_agent/rerank.py`     — LLM reranking of retrieved candidates
* `src/rag_agent/retry.py`      — exponential-backoff retry wrapper
* `src/rag_agent/embeddings.py` — embedding provider wrapper
* `src/rag_agent/qa.py` and `src/rag_agent/scientific_writing.py` — orchestration

Python values are modelled as follows: `str` becomes `String` (with the
Python-specific whitespace operations re-implemented on `List Char`),
`int` becomes `Int` or `Nat`, `float` becomes `ℚ` (only comparisons,
`min` and products appear, never rounding-sensitive arithmetic), JSON
values become the inductive `PyVal`, and code that can raise becomes
`Except PyExc _`.  External collaborators (OpenAI/Anthropic clients, the
Postgres vector store) enter as explicit parameters holding their
responses, mirroring the call sites in the source.
-/

namespace RagAgent

/-! ## Python string primitives

`str.split()`, `str.strip()`, `str.join` and the sentence-splitting
regular expression `(?<=[.!?])\s+` from `chunking.py`, re-implemented
character by character.  The Python class `\s` (and `str.strip()` / `str.split()`
with no argument) treats exactly the ASCII characters space, tab,
newline, carriage return, vertical tab and form feed as whitespace on
the ASCII inputs relevant here. -/

/-- Python whitespace test (ASCII range, as used by `\s`, `split()`, `strip()`). -/
def isPySpace (c : Char) : Bool :=
  c = ' ' || c = '\t' || c = '\n' || c = '\r' || c = Char.ofNat 11 || c = Char.ofNat 12

/-- Accumulator form of `str.split()`: splits on runs of whitespace, dropping
empty words.  `acc` holds the current word reversed. -/
def pySplitWordsAux : List Char → List Char → List String
  | [], acc => if acc.isEmpty then [] else [String.mk acc.reverse]
  | c :: rest, acc =>
    if isPySpace c then
      if acc.isEmpty then pySplitWordsAux rest []
      else String.mk acc.reverse :: pySplitWordsAux rest []
    else pySplitWordsAux rest (c :: acc)

/-- Python `s.split()` (no separator argument): whitespace-run split, no empties. -/
def pyWords (s : String) : List String :=
  pySplitWordsAux s.data []

/-- Python `s.strip()`: remove leading and trailing whitespace. -/
def pyStrip (s : String) : String :=
  String.mk (((s.data.dropWhile isPySpace).reverse.dropWhile isPySpace).reverse)

/-- Python `sep.join(ws)`. -/
def pyJoinSep (sep : String) : List String → String
  | [] => ""
  | [w] => w
  | w :: ws => w ++ sep ++ pyJoinSep sep ws

/-- Does the current (reversed) part end in sentence punctuation?  This
is the `(?<=[.!?])` lookbehind at the cursor. -/
def endsPunct : List Char → Bool
  | p :: _ => p = '.' || p = '!' || p = '?'
  | [] => false

/-- The regex split `re.split(r"(?<=[.!?])\s+", text)` from
`split_sentences`: a part ends at each maximal whitespace run whose
preceding character is `.`, `!` or `?`; the run itself is consumed.
The state is `some acc` (current part, reversed) or `none` while
consuming a separator whitespace run. -/
def sentSplitAux : Option (List Char) → List Char → List (List Char)
  | none, [] => [[]]
  | none, c :: rest =>
    if isPySpace c then sentSplitAux none rest
    else sentSplitAux (some [c]) rest
  | some acc, [] => [acc.reverse]
  | some acc, c :: rest =>
    if isPySpace c && endsPunct acc then
      acc.reverse :: sentSplitAux none rest
    else
      sentSplitAux (some (c :: acc)) rest

/-- `split_sentences` (chunking.py:14-17): replace `"\r"` by a space,
split at sentence-ending punctuation followed by whitespace, strip each
part, and drop empty parts. -/
def split_sentences (text : String) : List String :=
  let replaced := String.mk (text.data.map fun c => if c = '\r' then ' ' else c)
  ((sentSplitAux (some []) replaced.data).map fun part => pyStrip (String.mk part)).filter
    fun s => s ≠ ""

/-! ## Chunker (`chunking.py`)

`_chunk_tokens` keeps a sliding `window` of sentences with a parallel
list of token counts; the two lists are always pushed and popped
together, so the window is modelled as a single list of
(sentence, token count) pairs. -/

/-- One (sentence, token count) entry of the sliding window. -/
abbrev SentWin := List (String × Nat)

/-- `sum(token_counts)` for a window. -/
def sumCounts (w : SentWin) : Nat :=
  (w.map Prod.snd).sum

/-- The `while sum(token_counts) > max_tokens and window:` loop of
`_chunk_tokens`: pop entries from the front until the count sum is at
most `max_tokens` or the window is empty. -/
def dropWhileOver (maxTokens : Nat) : SentWin → SentWin
  | [] => []
  | e :: rest =>
    if sumCounts (e :: rest) > maxTokens then dropWhileOver maxTokens rest
    else e :: rest

/-- The overlap-retention loop of `_chunk_tokens`, lines 35-44, applied
to the window already reversed: keep entries while the remaining
`overlap_tokens` budget is positive, decrementing it by each kept token
count (the budget may go negative in Python, hence `Int`). -/
def overlapTake (budget : Int) : SentWin → SentWin
  | [] => []
  | e :: rest =>
    if budget ≤ 0 then []
    else e :: overlapTake (budget - e.2) rest

/-- Seed the next window from the tail of the emitted one (the
`trimmed_window` construction: iterate the window reversed, insert kept
entries at the front). -/
def overlapWindow (overlap : Nat) (w : SentWin) : SentWin :=
  (overlapTake (overlap : Int) w.reverse).reverse

/-- `" ".join(window)`. -/
def joinWindow (w : SentWin) : String :=
  pyJoinSep " " (w.map Prod.fst)

/-- The per-sentence loop body plus final flush of `_chunk_tokens`
(chunking.py:20-49).  For each sentence: append it with its token count,
run the over-limit eviction loop, and if `sum(token_counts) >=
max_tokens - overlap` (stated over `Int` as `sum + overlap ≥ max_tokens`
because Python subtraction does not truncate at zero) emit the joined
window and seed the next one from its tail.  A non-empty final window is
emitted at the end. -/
def chunkTokensGo (maxTokens overlap : Nat) : List String → SentWin → List String
  | [], window => if window.isEmpty then [] else [joinWindow window]
  | s :: rest, window =>
    let w1 := window ++ [(s, (pyWords s).length)]
    let w2 := dropWhileOver maxTokens w1
    if sumCounts w2 + overlap ≥ maxTokens then
      joinWindow w2 :: chunkTokensGo maxTokens overlap rest (overlapWindow overlap w2)
    else
      chunkTokensGo maxTokens overlap rest w2

/-- `_chunk_tokens(sentences, max_tokens, overlap)` as the list of
yielded chunk strings. -/
def chunk_tokens (sentences : List String) (maxTokens overlap : Nat) : List String :=
  chunkTokensGo maxTokens overlap sentences []

/-- `Chunk` dataclass (chunking.py:52-56). -/
structure Chunk where
  doc_id : String
  chunk_id : Nat
  content : String
deriving DecidableEq, Repr

/-- Exceptions raised by the modelled Python code. -/
inductive PyExc where
  | valueError
  | attributeError
  | typeError
  | runtimeError
deriving DecidableEq, Repr

/-- `chunk_text(doc_id, text)` (chunking.py:59-88).  `maxTokens` and
`overlap` stand for `settings.max_tokens` and `settings.overlap_tokens`
(defaults 220 and 40, validated to satisfy `overlap < max_tokens`,
`1 ≤ max_tokens`).  Raises `ValueError` on empty or whitespace-only
text; falls back to one chunk holding the whole stripped text when the
window pass yields nothing. -/
def chunk_text (doc_id text : String) (maxTokens overlap : Nat) :
    Except PyExc (List Chunk) :=
  if pyStrip text = "" then .error .valueError
  else
    let sentences := split_sentences text
    let chunks := (chunk_tokens sentences maxTokens overlap).enum.map
      fun p => Chunk.mk doc_id p.1 p.2
    if chunks.isEmpty then .ok [Chunk.mk doc_id 0 (pyStrip text)]
    else .ok chunks

/-! ## Retrieval (`retrieval.py`)

The Postgres/pgvector collaborator is reached only through
`SIMILARITY_SQL`:
`SELECT doc_id, chunk_id, content, meta, 1 - (embedding <=> :embedding) AS score
 FROM documents ORDER BY embedding <=> :embedding LIMIT :limit`.
The store is modelled as a list of rows and the query embedding enters
through `dist`, the cosine distance `embedding <=> :embedding` of each
stored row to the query; `ORDER BY` leaves the order of equal-distance
rows unspecified and is realized here as a stable sort. -/

/-- A row of the `documents` table (storage.py), as read by the query. -/
structure StoredRow where
  doc_id : String
  chunk_id : Int
  content : String
  meta : Option (List (String × String))
deriving DecidableEq, Repr

/-- `RetrievedChunk` dataclass (retrieval.py:13-19).  `meta` is used by the
pipeline only through string-valued keys (`authors`, `year`, `title`),
so it is modelled as a string-to-string association list. -/
structure RetrievedChunk where
  doc_id : String
  chunk_id : Int
  content : String
  score : ℚ
  meta : List (String × String)
deriving DecidableEq, Repr

/-- Ordering of rows by distance to the query (the `ORDER BY` clause). -/
def rowLE (dist : StoredRow → ℚ) (r s : StoredRow) : Prop := dist r ≤ dist s

instance (dist : StoredRow → ℚ) : DecidableRel (rowLE dist) :=
  fun r s => inferInstanceAs (Decidable (dist r ≤ dist s))

instance (dist : StoredRow → ℚ) : IsTotal StoredRow (rowLE dist) :=
  ⟨fun r s => le_total (dist r) (dist s)⟩

instance (dist : StoredRow → ℚ) : IsTrans StoredRow (rowLE dist) :=
  ⟨fun _ _ _ h1 h2 => le_trans h1 h2⟩

/-- The rows returned by executing `SIMILARITY_SQL` with `LIMIT lim`. -/
def similaritySql (dist : StoredRow → ℚ) (store : List StoredRow) (lim : Nat) :
    List StoredRow :=
  (List.insertionSort (rowLE dist) store).take lim

/-- The row-shaping comprehension of retrieval.py:39-48: each row
becomes a `RetrievedChunk` with `score = 1 - distance` and
`meta = row.meta or {}` (a missing `meta` becomes the empty dict; an
empty dict is also falsy and is mapped to itself). -/
def shapeRow (dist : StoredRow → ℚ) (r : StoredRow) : RetrievedChunk :=
  { doc_id := r.doc_id, chunk_id := r.chunk_id, content := r.content,
    score := 1 - dist r, meta := r.meta.getD [] }

/-- `similarity_search(embedding, limit)` (retrieval.py:32-48).  `knnK`
stands for `settings.knn_k` (default 8, validated `≥ 1`).  The Python
default is applied by `limit = limit or settings.knn_k`, in which both
`None` and `0` are falsy. -/
def similarity_search (dist : StoredRow → ℚ) (knnK : Nat) (store : List StoredRow)
    (lim? : Option Nat) : List RetrievedChunk :=
  let lim := match lim? with
    | none => knnK
    | some n => if n = 0 then knnK else n
  (similaritySql dist store lim).map (shapeRow dist)

/-! ## JSON values and the dynamic Python operations used by `rerank`

`json.loads` produces (for the fragment relevant here) `None`, booleans,
numbers, strings, lists and string-keyed objects; `PyVal` covers those.
The reranker then runs `data.get`, iteration, `item.get`, `float(...)`
and tuple-keyed dictionary lookup on the result, each of which can raise
on values of the wrong runtime type; those operations are modelled below
with their Python error behavior. -/

/-- A Python value as produced by `json.loads` (plus tuples of such
values appear only as the score-map keys, modelled as pairs). -/
inductive PyVal where
  | null
  | bool (b : Bool)
  | num (q : ℚ)
  | str (s : String)
  | list (xs : List PyVal)
  | dict (kvs : List (PyVal × PyVal))

mutual
/-- Python `==` on JSON values.  Python identifies `True`/`False` with
`1`/`0` in numeric comparisons; that coercion is included.  Python
compares dicts as unordered mappings; this model compares entry lists
pointwise, which agrees with Python on the values the pipeline actually
compares (ranking keys are strings and numbers, and `json.loads`
produces duplicate-free objects). -/
def pyEq : PyVal → PyVal → Bool
  | .null, .null => true
  | .bool a, .bool b => a == b
  | .bool a, .num q => (if a then (1 : ℚ) else 0) == q
  | .num q, .bool b => q == (if b then (1 : ℚ) else 0)
  | .num p, .num q => p == q
  | .str a, .str b => a == b
  | .list xs, .list ys => pyEqList xs ys
  | .dict xs, .dict ys => pyEqKVList xs ys
  | _, _ => false

/-- Pointwise `pyEq` on lists. -/
def pyEqList : List PyVal → List PyVal → Bool
  | [], [] => true
  | x :: xs, y :: ys => pyEq x y && pyEqList xs ys
  | _, _ => false

/-- Pointwise `pyEq` on key-value lists. -/
def pyEqKVList : List (PyVal × PyVal) → List (PyVal × PyVal) → Bool
  | [], [] => true
  | (k1, v1) :: xs, (k2, v2) :: ys => pyEq k1 k2 && pyEq v1 v2 && pyEqKVList xs ys
  | _, _ => false
end

/-- Association lookup with `pyEq` keys (Python dict lookup). -/
def pyAssoc (kvs : List (PyVal × PyVal)) (k : PyVal) : Option PyVal :=
  (kvs.find? fun e => pyEq e.1 k).map (·.2)

/-- Python `v.get(key, default)`: only dicts have `.get`; on any other
JSON value the attribute access raises `AttributeError`. -/
def pyDictGet (v : PyVal) (key : String) (dflt : PyVal) : Except PyExc PyVal :=
  match v with
  | .dict kvs => .ok ((pyAssoc kvs (.str key)).getD dflt)
  | _ => .error .attributeError

/-- Python `for item in v`: lists iterate their elements, strings their
one-character substrings, dicts their keys; `None`, booleans and numbers
raise `TypeError`. -/
def pyIter (v : PyVal) : Except PyExc (List PyVal) :=
  match v with
  | .list xs => .ok xs
  | .str s => .ok (s.data.map fun c => .str (String.mk [c]))
  | .dict kvs => .ok (kvs.map Prod.fst)
  | _ => .error .typeError

/-- Numeric value of a digit run. -/
def natOfDigits (ds : List Char) : Nat :=
  ds.foldl (fun n c => 10 * n + (c.toNat - 48)) 0

/-- Python `float(s)` on strings: optional surrounding whitespace, an
optional sign, and decimal digits with at most one point (at least one
digit overall).  Exponents, `inf`/`nan` and digit separators are not
modelled; no claim exercises them. -/
def pyParseFloat (s : String) : Option ℚ :=
  let t := (pyStrip s).data
  let signed : ℚ × List Char :=
    match t with
    | '-' :: r => (-1, r)
    | '+' :: r => (1, r)
    | r => (1, r)
  let intPart := signed.2.takeWhile Char.isDigit
  let rest := signed.2.dropWhile Char.isDigit
  match rest with
  | [] => if intPart.isEmpty then none else some (signed.1 * (natOfDigits intPart : ℚ))
  | '.' :: frac =>
    if frac.all Char.isDigit && !(intPart.isEmpty && frac.isEmpty) then
      some (signed.1 *
        ((natOfDigits intPart : ℚ) + (natOfDigits frac : ℚ) / (10 : ℚ) ^ frac.length))
    else none
  | _ => none

/-- Python `float(v)`: numbers pass through, booleans become `0`/`1`,
numeric strings are parsed (`ValueError` otherwise); `None`, lists and
dicts raise `TypeError`. -/
def pyFloat (v : PyVal) : Except PyExc ℚ :=
  match v with
  | .num q => .ok q
  | .bool b => .ok (if b then 1 else 0)
  | .str s =>
    match pyParseFloat s with
    | some q => .ok q
    | none => .error .valueError
  | .null => .error .typeError
  | .list _ => .error .typeError
  | .dict _ => .error .typeError

/-! ## Reranker (`rerank.py`) -/

/-- `RerankCandidate` dataclass (rerank.py:17-23). -/
structure RerankCandidate where
  doc_id : String
  chunk_id : Int
  content : String
  score : ℚ
  meta : List (String × String)
deriving DecidableEq, Repr

/-- The score map built from the ranking list of the model, keyed by
`(doc_id, chunk_id)` values as returned in the response.  Entries are
prepended, and `scoreLookup` scans from the front, so a duplicated key
resolves to the last item of the ranking — as in the Python dict
comprehension. -/
abbrev ScoreMap := List ((PyVal × PyVal) × ℚ)

/-- Lookup in the score map with Python tuple equality. -/
def scoreLookup (m : ScoreMap) (k : PyVal × PyVal) : Option ℚ :=
  (m.find? fun e => pyEq e.1.1 k.1 && pyEq e.1.2 k.2).map (·.2)

/-- The dict comprehension of rerank.py:101-104:
`{(item.get("doc_id"), item.get("chunk_id")): float(item.get("score", 0.0))
  for item in ranking}` — each item must support `.get` (else
`AttributeError`) and its score must convert with `float` (else
`TypeError`/`ValueError`). -/
def buildScoreMap : List PyVal → ScoreMap → Except PyExc ScoreMap
  | [], acc => .ok acc
  | item :: rest, acc => do
    let d ← pyDictGet item "doc_id" .null
    let c ← pyDictGet item "chunk_id" .null
    let s ← pyDictGet item "score" (.num 0)
    let q ← pyFloat s
    buildScoreMap rest (((d, c), q) :: acc)

/-- `data.get("ranking", [])` followed by iterating it and building the
score map (rerank.py:97-104, minus the caught `JSONDecodeError`). -/
def scoreMapOfData (data : PyVal) : Except PyExc ScoreMap := do
  let ranking ← pyDictGet data "ranking" (.list [])
  let items ← pyIter ranking
  buildScoreMap items []

/-- `score_map.get((c.doc_id, c.chunk_id), c.score)`: the resolved score of a candidate — the score the model gave its key when present, otherwise
its original similarity score. -/
def resolvedScore (m : ScoreMap) (c : RerankCandidate) : ℚ :=
  (scoreLookup m (.str c.doc_id, .num (c.chunk_id : ℚ))).getD c.score

/-- The comparison realized by
`sorted(candidates, key=lambda c: score_map.get(..., c.score), reverse=True)`:
the Python sort is stable, and `reverse=True` orders by descending key
while keeping equal-key elements in their original relative order —
i.e. a stable insertion sort along this relation. -/
def candGE (m : ScoreMap) (a b : RerankCandidate) : Prop :=
  resolvedScore m b ≤ resolvedScore m a

instance (m : ScoreMap) : DecidableRel (candGE m) :=
  fun a b => inferInstanceAs (Decidable (resolvedScore m b ≤ resolvedScore m a))

instance (m : ScoreMap) : IsTotal RerankCandidate (candGE m) :=
  ⟨fun a b => le_total (resolvedScore m b) (resolvedScore m a)⟩

instance (m : ScoreMap) : IsTrans RerankCandidate (candGE m) :=
  ⟨fun _ _ _ h1 h2 => le_trans h2 h1⟩

/-- `rerank(question, candidates)` (rerank.py:58-111).  `needsRerank`
stands for `settings.needs_rerank`; the client construction, prompt and
chat-completion round trip are abstracted into `parsed`, the outcome of
`json.loads(content)` on the response text (`.error` = the
`json.JSONDecodeError` branch, which logs and returns the original
order).  The question only feeds the prompt and does not affect the
returned value. -/
def rerank (needsRerank : Bool) (candidates : List RerankCandidate)
    (parsed : Except Unit PyVal) : Except PyExc (List RerankCandidate) :=
  if !needsRerank || candidates.isEmpty then .ok candidates
  else
    match parsed with
    | .error _ => .ok candidates
    | .ok data => do
      let m ← scoreMapOfData data
      .ok (List.insertionSort (candGE m) candidates)

/-! ## Retry policy (`retry.py`) -/

/-- Outcome of one attempt of the wrapped operation: success, or an
exception that is (`retryable = true`) or is not an instance of the
`retryable_exceptions` tuple.  `e` identifies the exception object. -/
inductive CallOutcome (α : Type) where
  | ok (a : α)
  | exc (retryable : Bool) (e : Nat)

/-- Result of running the wrapped function: the value or the propagated
exception, together with the sequence of back-off sleeps performed (in
seconds, in order).  `logicError` is the trailing
`RuntimeError("Retry logic error")`, reachable only with zero fuel. -/
inductive RetryResult (α : Type) where
  | ok (a : α) (sleeps : List ℚ)
  | raised (e : Nat) (sleeps : List ℚ)
  | logicError (sleeps : List ℚ)
deriving DecidableEq

/-- Record one back-off sleep in front of the sleep trace of a result. -/
def RetryResult.withSleep (d : ℚ) : RetryResult α → RetryResult α
  | .ok a s => .ok a (d :: s)
  | .raised e s => .raised e (d :: s)
  | .logicError s => .logicError (d :: s)

/-- The `for attempt in range(max_retries + 1)` loop of retry.py:38-63.
`fuel` is the number of loop iterations left, so `fuel = 1` means
`attempt == max_retries`: a retryable failure there is re-raised.  On an
earlier retryable failure the delay is first updated to
`min(delay * exponential_base, max_delay)` and then slept — so the
updated value, not the incoming one, is the sleep before the next
attempt.  A non-retryable exception is not matched by the `except`
clause and propagates with no sleep. -/
def retryGo (f : Nat → CallOutcome α) (base maxDelay : ℚ) :
    Nat → Nat → ℚ → RetryResult α
  | _, 0, _ => .logicError []
  | attempt, fuel + 1, delay =>
    match f attempt with
    | .ok a => .ok a []
    | .exc true e =>
      if fuel = 0 then .raised e []
      else
        let d := min (delay * base) maxDelay
        (retryGo f base maxDelay (attempt + 1) fuel d).withSleep d
    | .exc false e => .raised e []

/-- `retry_with_exponential_backoff(max_retries, initial_delay,
exponential_base, max_delay)` applied to an operation whose successive
attempts produce `f 0, f 1, ...` (retry.py:14-68).  Defaults:
`max_retries = 3`, `initial_delay = 1`, `exponential_base = 2`,
`max_delay = 60`. -/
def retry_with_exponential_backoff (maxRetries : Nat)
    (initialDelay base maxDelay : ℚ) (f : Nat → CallOutcome α) : RetryResult α :=
  retryGo f base maxDelay 0 (maxRetries + 1) initialDelay

/-! ## Embeddings (`embeddings.py`) -/

/-- Ordering of the provider response items by their `index` field
(`sorted(response.data, key=lambda d: d.index)` — a stable ascending
sort). -/
def idxLE (a b : Nat × List ℚ) : Prop := a.1 ≤ b.1

instance : DecidableRel idxLE := fun a b => inferInstanceAs (Decidable (a.1 ≤ b.1))

instance : IsTotal (Nat × List ℚ) idxLE := ⟨fun a b => Nat.le_total a.1 b.1⟩

instance : IsTrans (Nat × List ℚ) idxLE := ⟨fun _ _ _ h1 h2 => Nat.le_trans h1 h2⟩

/-- `embed_texts(texts)` (embeddings.py:26-57).  `hasCred` is
`settings.has_embedding_credentials`; `respData` is the `data` field
of the provider response, a list of `(index, embedding)` items.  The
second component of the result records whether the provider was invoked
at all.  An empty input returns `[]` before the client is even
constructed; `_get_client()` raises `RuntimeError` without credentials;
otherwise the response items are re-sorted by original index. -/
def embed_texts (hasCred : Bool) (respData : List (Nat × List ℚ))
    (texts : List String) : Except PyExc (List (List ℚ)) × Bool :=
  if texts.isEmpty then (.ok [], false)
  else if !hasCred then (.error .runtimeError, false)
  else (.ok ((List.insertionSort idxLE respData).map Prod.snd), true)

/-! ## Citations (`scientific_writing.py`) -/

/-- `Citation` dataclass (scientific_writing.py:38-62). -/
structure Citation where
  doc_id : String
  chunk_id : Int
  authors : Option String := none
  year : Option String := none
deriving DecidableEq, Repr

/-- Python truthiness of an `Optional[str]`: `None` and `""` are falsy. -/
def pyTruthy : Option String → Bool
  | none => false
  | some s => !(s == "")

/-- Python `s.split(sep)[0]`: the text before the first occurrence of
`sep`. -/
def strBefore (sep s : String) : String := (s.splitOn sep).headD s

/-- `Citation.in_text`: `(<first author surname>, <year>)` when both
authors and year are truthy, else `(<doc_id>)`. -/
def Citation.in_text (c : Citation) : String :=
  if pyTruthy c.authors && pyTruthy c.year then
    let firstAuthor := pyStrip (strBefore " et al." (strBefore "," (c.authors.getD "")))
    "(" ++ firstAuthor ++ ", " ++ c.year.getD "" ++ ")"
  else "(" ++ c.doc_id ++ ")"

/-- `Citation.reference`: `"<authors> (<year>). <doc_id>"` when both are
truthy, else just the document id. -/
def Citation.reference (c : Citation) : String :=
  if pyTruthy c.authors && pyTruthy c.year then
    c.authors.getD "" ++ " (" ++ c.year.getD "" ++ "). " ++ c.doc_id
  else c.doc_id

/-- Python f-string rendering of an `Optional[str]` (`None` prints as
`"None"`). -/
def pyFStr : Option String → String
  | none => "None"
  | some s => s

/-- The dedup key `f"{citation.authors}_{citation.year}"` of
scientific_writing.py:91. -/
def refKey (c : Citation) : String := pyFStr c.authors ++ "_" ++ pyFStr c.year

/-- The collection loop of `_build_harvard_references`
(scientific_writing.py:87-95): keep the rendered reference of each citation
if its key was not seen before, recording seen keys. -/
def collectRefs (seen : List String) : List Citation → List String
  | [] => []
  | c :: rest =>
    if refKey c ∈ seen then collectRefs seen rest
    else c.reference :: collectRefs (refKey c :: seen) rest

/-- String comparison used by `references.sort()`: Python compares
strings lexicographically by code point, which is the order on `String`. -/
def strLE (a b : String) : Prop := a ≤ b

instance : DecidableRel strLE := fun a b => inferInstanceAs (Decidable (a ≤ b))

instance : IsTotal String strLE := ⟨fun a b => le_total a b⟩

instance : IsTrans String strLE := ⟨fun _ _ _ h1 h2 => le_trans h1 h2⟩

/-- `_build_harvard_references(citations)` (scientific_writing.py:82-99):
empty string for no citations; otherwise the first-occurrence references
per dedup key, sorted ascending (`list.sort()` is a stable ascending
sort), joined under the bibliography header. -/
def build_harvard_references (citations : List Citation) : String :=
  if citations.isEmpty then ""
  else
    let references := collectRefs [] citations
    let sorted := List.insertionSort strLE references
    "\n\n**Literaturverzeichnis:**\n\n" ++ pyJoinSep "\n\n" sorted

/-! ## Orchestration (`qa.py`, `scientific_writing.py`)

The collaborator calls are abstracted into parameters: `retrieved` is
the `similarity_search` result for the already-embedded query,
`needsRerank`/`parsed` drive `rerank` as above, and `genText` is the
text returned by the external generation provider.  Both flows are
instrumented to also return the subset actually handed to generation,
so the auditability invariant about `sources` can be stated. -/

/-- `ContextChunk` dataclass (llm.py:17-24). -/
structure ContextChunk where
  doc_id : String
  chunk_id : Int
  content : String
deriving DecidableEq, Repr

/-- Shape a retrieved chunk into a rerank candidate (qa.py:23-31). -/
def toCandidate (c : RetrievedChunk) : RerankCandidate :=
  { doc_id := c.doc_id, chunk_id := c.chunk_id, content := c.content,
    score := c.score, meta := c.meta }

/-- Shape a ranked candidate back into a `RetrievedChunk` (qa.py:38-46). -/
def toRetrieved (c : RerankCandidate) : RetrievedChunk :=
  { doc_id := c.doc_id, chunk_id := c.chunk_id, content := c.content,
    score := c.score, meta := c.meta }

/-- Shape a ranked candidate into a generation context chunk (qa.py:33-36). -/
def toContext (c : RerankCandidate) : ContextChunk :=
  { doc_id := c.doc_id, chunk_id := c.chunk_id, content := c.content }

/-- `Answer` dataclass (qa.py:13-16). -/
structure Answer where
  text : String
  sources : List RetrievedChunk
deriving DecidableEq, Repr

/-- `answer_question(question)` (qa.py:19-49), from the point where the
retrieval result is in hand.  Returns the `Answer` and, as instrumentation,
the list of context chunks passed to `generate_answer` (the top 3 of the
reranked order). -/
def answer_question (retrieved : List RetrievedChunk) (needsRerank : Bool)
    (parsed : Except Unit PyVal) (genText : String) :
    Except PyExc (Answer × List ContextChunk) :=
  if retrieved.isEmpty then
    .ok ({ text := "Es sind keine passenden Dokumente vorhanden.", sources := [] }, [])
  else do
    let candidates := retrieved.map toCandidate
    let ranked ← rerank needsRerank candidates parsed
    let context := (ranked.take 3).map toContext
    .ok ({ text := genText, sources := ranked.map toRetrieved }, context)

/-- Result of `_extract_metadata(chunk)` (scientific_writing.py:72-80):
a dict that always carries the three keys. -/
structure ExtractedMeta where
  authors : String
  year : String
  title : String
deriving DecidableEq, Repr

/-- `_extract_metadata`: string metadata with defaults (`title` defaults
to the document id). -/
def extract_metadata (c : RerankCandidate) : ExtractedMeta :=
  { authors := (c.meta.lookup "authors").getD ""
    year := (c.meta.lookup "year").getD ""
    title := (c.meta.lookup "title").getD c.doc_id }

/-- The citation built for one ranked candidate
(scientific_writing.py:317-323): `meta.get("authors")` /
`meta.get("year")` on the extracted dict always yield a string (possibly
empty), never `None`. -/
def mkCitation (item : RerankCandidate) : Citation :=
  { doc_id := item.doc_id, chunk_id := item.chunk_id,
    authors := some (extract_metadata item).authors,
    year := some (extract_metadata item).year }

/-- `ScientificText` dataclass (scientific_writing.py:65-70). -/
structure ScientificText where
  text : String
  citations : List Citation
  sources : List RetrievedChunk
  reference_list : String
deriving DecidableEq, Repr

/-- `generate_scientific_section(section, topic, num_sources)`
(scientific_writing.py:271-385), from the point where the retrieval
result (already limited to `num_sources` by the retrieval call) is in
hand.  The section template and prompt feed only the external LLM,
whose reply is `genText`.  The second component records the enumerated
candidates (`enumerate(ranked[:num_sources], 1)`) whose contents were
placed in the generation context. -/
def generate_scientific_section (numSources : Nat) (retrieved : List RetrievedChunk)
    (needsRerank : Bool) (parsed : Except Unit PyVal) (genText : String) :
    Except PyExc (ScientificText × List (Nat × RerankCandidate)) :=
  if retrieved.isEmpty then
    .ok ({ text := "Es sind keine passenden Dokumente für dieses Thema in der Datenbank vorhanden. Bitte laden Sie zunächst relevante wissenschaftliche Literatur hoch.",
           citations := [], sources := [], reference_list := "" }, [])
  else do
    let candidates := retrieved.map toCandidate
    let ranked ← rerank needsRerank candidates parsed
    let used := List.enumFrom 1 (ranked.take numSources)
    let citations := used.map fun p => mkCitation p.2
    let referenceList := build_harvard_references citations
    .ok ({ text := genText, citations := citations,
           sources := ranked.map toRetrieved, reference_list := referenceList }, used)

/-! ## Lemmas: tokens of joined windows -/

theorem pySplitWordsAux_append_space (a b acc : List Char) :
    pySplitWordsAux (a ++ ' ' :: b) acc
      = pySplitWordsAux a acc ++ pySplitWordsAux b [] := by
  induction a generalizing acc with
  | nil =>
    show pySplitWordsAux (' ' :: b) acc = _
    by_cases h : acc.isEmpty <;>
      simp [pySplitWordsAux, isPySpace, h]
  | cons c a ih =>
    show pySplitWordsAux (c :: (a ++ ' ' :: b)) acc = pySplitWordsAux (c :: a) acc ++ _
    by_cases hc : isPySpace c
    · by_cases h : acc.isEmpty <;> simp [pySplitWordsAux, hc, h, ih]
    · simp [pySplitWordsAux, hc, ih]

theorem pyWords_append_space (s t : String) :
    pyWords (s ++ " " ++ t) = pyWords s ++ pyWords t := by
  have h : (s ++ " " ++ t).data = s.data ++ ' ' :: t.data := by
    simp [String.data_append]
  simp [pyWords, h, pySplitWordsAux_append_space]

theorem pyWords_joinSep (ws : List String) :
    pyWords (pyJoinSep " " ws) = (ws.map pyWords).flatten := by
  induction ws with
  | nil => rfl
  | cons w ws ih =>
    cases ws with
    | nil => simp [pyJoinSep]
    | cons w2 ws2 =>
      rw [show pyJoinSep " " (w :: w2 :: ws2) = w ++ " " ++ pyJoinSep " " (w2 :: ws2) from rfl,
        pyWords_append_space, ih]
      simp

theorem length_pyWords_joinWindow (w : SentWin)
    (hw : ∀ p ∈ w, p.2 = (pyWords p.1).length) :
    (pyWords (joinWindow w)).length = sumCounts w := by
  unfold joinWindow sumCounts
  rw [pyWords_joinSep, List.length_flatten]
  induction w with
  | nil => simp
  | cons e w ih =>
    simp only [List.map_cons, List.sum_cons]
    rw [ih (fun p hp => hw p (List.mem_cons_of_mem e hp))]
    rw [hw e (List.mem_cons_self e w)]

/-! ## Lemmas: the sliding window -/

theorem sumCounts_dropWhileOver (maxT : Nat) (w : SentWin) :
    sumCounts (dropWhileOver maxT w) ≤ maxT := by
  induction w with
  | nil => simp [dropWhileOver, sumCounts]
  | cons e rest ih =>
    simp only [dropWhileOver]
    split
    · exact ih
    · omega

theorem dropWhileOver_suffix (maxT : Nat) (w : SentWin) :
    dropWhileOver maxT w <:+ w := by
  induction w with
  | nil => simp [dropWhileOver]
  | cons e rest ih =>
    simp only [dropWhileOver]
    split
    · exact ih.trans (List.suffix_cons e rest)
    · exact List.suffix_refl _

theorem overlapTake_front (b : Int) (w : SentWin) : overlapTake b w <+: w := by
  induction w generalizing b with
  | nil => simp [overlapTake]
  | cons e rest ih =>
    simp only [overlapTake]
    split
    · exact List.nil_prefix
    · obtain ⟨t, ht⟩ := ih (b - e.2)
      exact ⟨t, by simp [ht]⟩

theorem overlapWindow_suffix (ov : Nat) (w : SentWin) : overlapWindow ov w <:+ w := by
  have h := List.reverse_suffix.mpr (overlapTake_front (ov : Int) w.reverse)
  simpa [overlapWindow] using h

theorem sumCounts_le_of_suffix {w1 w2 : SentWin} (h : w1 <:+ w2) :
    sumCounts w1 ≤ sumCounts w2 := by
  obtain ⟨t, rfl⟩ := h
  simp only [sumCounts, List.map_append, List.sum_append]
  omega

/-- Every chunk emitted by the window pass is a join of window sentences
whose true token counts sum to at most `max_tokens`: the window
invariant `sum(token_counts) ≤ max_tokens` holds at every yield. -/
theorem chunkTokensGo_token_bound (maxT ov : Nat) :
    ∀ (sents : List String) (w : SentWin),
      (∀ p ∈ w, p.2 = (pyWords p.1).length) →
      sumCounts w ≤ maxT →
      ∀ c ∈ chunkTokensGo maxT ov sents w, (pyWords c).length ≤ maxT := by
  intro sents
  induction sents with
  | nil =>
    intro w hw hle c hc
    simp only [chunkTokensGo] at hc
    split at hc
    · simp at hc
    · simp only [List.mem_singleton] at hc
      subst hc
      rw [length_pyWords_joinWindow w hw]
      exact hle
  | cons s rest ih =>
    intro w hw hle c hc
    simp only [chunkTokensGo] at hc
    have hw1inv : ∀ p ∈ w ++ [(s, (pyWords s).length)], p.2 = (pyWords p.1).length := by
      intro p hp
      rcases List.mem_append.mp hp with h | h
      · exact hw p h
      · simp only [List.mem_singleton] at h
        subst h
        rfl
    have hw2inv : ∀ p ∈ dropWhileOver maxT (w ++ [(s, (pyWords s).length)]),
        p.2 = (pyWords p.1).length := fun p hp =>
      hw1inv p ((dropWhileOver_suffix maxT _).sublist.subset hp)
    have hw2le : sumCounts (dropWhileOver maxT (w ++ [(s, (pyWords s).length)])) ≤ maxT :=
      sumCounts_dropWhileOver maxT _
    split at hc
    · rcases List.mem_cons.mp hc with hc | hc
      · subst hc
        rw [length_pyWords_joinWindow _ hw2inv]
        exact hw2le
      · refine ih _ (fun p hp => hw2inv p ((overlapWindow_suffix ov _).sublist.subset hp))
          (le_trans (sumCounts_le_of_suffix (overlapWindow_suffix ov _)) hw2le) c hc
    · exact ih _ hw2inv hw2le c hc

theorem suffix_window_mono {wa wb : SentWin} (h : wa <:+ wb) (rest allS : List String)
    (hs : wb.map Prod.fst ++ rest <:+ allS) : wa.map Prod.fst ++ rest <:+ allS := by
  obtain ⟨t, rfl⟩ := h
  obtain ⟨u, hu⟩ := hs
  exact ⟨u ++ t.map Prod.fst, by simpa [List.map_append, List.append_assoc] using hu⟩

theorem infix_of_suffix_append {α : Type} {l r allS : List α} (h : l ++ r <:+ allS) :
    l <:+: allS := by
  obtain ⟨t, rfl⟩ := h
  exact ⟨t, r, by simp⟩

/-- Every chunk emitted by the window pass is the space-join of a
contiguous run of the input sentences: the window always holds
consecutive sentences immediately preceding the unprocessed rest. -/
theorem chunkTokensGo_infix (maxT ov : Nat) (allS : List String) :
    ∀ (sents : List String) (w : SentWin),
      w.map Prod.fst ++ sents <:+ allS →
      ∀ c ∈ chunkTokensGo maxT ov sents w,
        ∃ ws, ws <:+: allS ∧ c = pyJoinSep " " ws := by
  intro sents
  induction sents with
  | nil =>
    intro w hsuf c hc
    simp only [chunkTokensGo] at hc
    split at hc
    · simp at hc
    · simp only [List.mem_singleton] at hc
      subst hc
      exact ⟨w.map Prod.fst, infix_of_suffix_append hsuf, rfl⟩
  | cons s rest ih =>
    intro w hsuf c hc
    simp only [chunkTokensGo] at hc
    have hsuf1 : (w ++ [(s, (pyWords s).length)]).map Prod.fst ++ rest <:+ allS := by
      simpa [List.map_append] using hsuf
    have hsuf2 : (dropWhileOver maxT (w ++ [(s, (pyWords s).length)])).map Prod.fst
        ++ rest <:+ allS :=
      suffix_window_mono (dropWhileOver_suffix maxT _) rest allS hsuf1
    split at hc
    · rcases List.mem_cons.mp hc with hc | hc
      · subst hc
        exact ⟨_, infix_of_suffix_append hsuf2, rfl⟩
      · exact ih _ (suffix_window_mono (overlapWindow_suffix ov _) rest allS hsuf2) c hc
    · exact ih _ hsuf2 c hc

/-! ## Statement-side metrics used by the chunking claims -/

/-- Python `needle in hay` on strings: substring containment. -/
def strContains (hay needle : String) : Bool :=
  hay.data.tails.any fun t => needle.data.isPrefixOf t

/-- The token count of the shared overlap region of two consecutive
chunks: the largest `n` such that the last `n` tokens of the first chunk
equal the first `n` tokens of the second. -/
def sharedTokenOverlap (t1 t2 : List String) : Nat :=
  ((List.range (min t1.length t2.length + 1)).filter fun n =>
    t1.drop (t1.length - n) == t2.take n).foldl max 0

/-! ## Claim C1 -/

/-- C1, counterexample.  With `max_tokens = 5`, `overlap_tokens = 2`
(valid settings: `1 ≤ max_tokens`, `overlap < max_tokens`), the input
`"w w w w. x x x x x x."` contains the single sentence
`"x x x x x x."` of 6 > 5 tokens, yet `chunk_text` returns only the
chunk `"w w w w."`, whose content does not contain that sentence: the
oversized sentence is dropped, not emitted. -/
theorem c1_counterexample :
    chunk_text "d" "w w w w. x x x x x x." 5 2 = .ok [⟨"d", 0, "w w w w."⟩] ∧
    "x x x x x x." ∈ split_sentences "w w w w. x x x x x x." ∧
    (pyWords "x x x x x x.").length = 6 ∧
    strContains "w w w w." "x x x x x x." = false := by
  refine ⟨rfl, by decide, rfl, rfl⟩

/-- C1 (amended): a single sentence longer than `max_tokens` is never
internally split, but it is not emitted as an oversized chunk either:
every chunk produced by the token-window pass has at most `max_tokens`
tokens (so an oversized sentence is evicted and dropped), and the only
way oversized text reaches the output is the whole-text fallback chunk
emitted when the window pass produced nothing. -/
theorem c1_window_chunks_bounded :
    ∀ (docId text : String) (maxT ov : Nat) (chunks : List Chunk),
      chunk_text docId text maxT ov = .ok chunks →
      (∀ ch ∈ chunks, (pyWords ch.content).length ≤ maxT) ∨
        chunks = [⟨docId, 0, pyStrip text⟩] := by
  intro docId text maxT ov chunks h
  simp only [chunk_text] at h
  split at h
  · simp at h
  · split at h
    · simp only [Except.ok.injEq] at h
      subst h
      right
      rfl
    · simp only [Except.ok.injEq] at h
      subst h
      left
      intro ch hch
      simp only [List.mem_map] at hch
      obtain ⟨p, hp, rfl⟩ := hch
      have hc : p.2 ∈ chunk_tokens (split_sentences text) maxT ov := by
        have h2 : p.2 ∈ (chunk_tokens (split_sentences text) maxT ov).enum.map Prod.snd :=
          List.mem_map_of_mem Prod.snd hp
        simpa [List.enum_map_snd] using h2
      exact chunkTokensGo_token_bound maxT ov _ [] (by simp) (by simp [sumCounts]) _ hc

/-- Witness for `c1_window_chunks_bounded`: a text that is one oversized
sentence reaches the output only through the fallback chunk. -/
theorem c1_witness :
    chunk_text "d" "x x x x x x." 5 2 = .ok [⟨"d", 0, "x x x x x x."⟩] ∧
    ((∀ ch ∈ [(⟨"d", 0, "x x x x x x."⟩ : Chunk)], (pyWords ch.content).length ≤ 5) ∨
      [(⟨"d", 0, "x x x x x x."⟩ : Chunk)] = [⟨"d", 0, pyStrip "x x x x x x."⟩]) :=
  ⟨rfl, c1_window_chunks_bounded "d" "x x x x x x." 5 2 _ rfl⟩

/-! ## Claim C2 -/

/-- C2, counterexample.  With `max_tokens = 5`, `overlap_tokens = 2`, on
`"a a a a. b. c c c c c c."` the token `"c"` occurs in the input but in
no returned chunk (the final sentence is evicted un-emitted), and the
two consecutive chunks share an overlap region of 4 tokens, exceeding
`overlap_tokens = 2`: both conjuncts of the claim fail. -/
theorem c2_counterexample :
    chunk_text "d" "a a a a. b. c c c c c c." 5 2
      = .ok [⟨"d", 0, "a a a a."⟩, ⟨"d", 1, "a a a a. b."⟩] ∧
    "c" ∈ pyWords "a a a a. b. c c c c c c." ∧
    "c" ∉ pyWords "a a a a." ∧ "c" ∉ pyWords "a a a a. b." ∧
    sharedTokenOverlap (pyWords "a a a a.") (pyWords "a a a a. b.") = 4 ∧
    ¬(4 ≤ 2) := by
  refine ⟨rfl, by decide, by decide, by decide, by decide, by decide⟩

/-- C2 (amended): chunking never splits a sentence — every returned
chunk is the space-join of a contiguous run of the split sentences (or
the whole-text fallback) — but tokens can be dropped across chunk
boundaries (a sentence evicted while the window exceeds `max_tokens`
before the emission threshold is reached never appears), and the
overlap retained between consecutive chunks is whole-sentence-aligned
and can exceed `overlap_tokens` by up to one sentence. -/
theorem c2_chunks_are_sentence_runs :
    ∀ (docId text : String) (maxT ov : Nat) (chunks : List Chunk) (ch : Chunk),
      chunk_text docId text maxT ov = .ok chunks → ch ∈ chunks →
      (∃ ws, ws <:+: split_sentences text ∧ ch.content = pyJoinSep " " ws) ∨
        ch.content = pyStrip text := by
  intro docId text maxT ov chunks ch h hch
  simp only [chunk_text] at h
  split at h
  · simp at h
  · split at h
    · simp only [Except.ok.injEq] at h
      subst h
      simp only [List.mem_singleton] at hch
      subst hch
      right
      rfl
    · simp only [Except.ok.injEq] at h
      subst h
      left
      simp only [List.mem_map] at hch
      obtain ⟨p, hp, rfl⟩ := hch
      have hc : p.2 ∈ chunk_tokens (split_sentences text) maxT ov := by
        have h2 : p.2 ∈ (chunk_tokens (split_sentences text) maxT ov).enum.map Prod.snd :=
          List.mem_map_of_mem Prod.snd hp
        simpa [List.enum_map_snd] using h2
      exact chunkTokensGo_infix maxT ov _ _ []
        (by simp) _ hc

/-- Witness for `c2_chunks_are_sentence_runs` at a concrete input. -/
theorem c2_witness :
    (∃ ws, ws <:+: split_sentences "a a a a. b. c c c c c c."
        ∧ ("a a a a. b." : String) = pyJoinSep " " ws) ∨
      ("a a a a. b." : String) = pyStrip "a a a a. b. c c c c c c." :=
  c2_chunks_are_sentence_runs "d" "a a a a. b. c c c c c c." 5 2
    [⟨"d", 0, "a a a a."⟩, ⟨"d", 1, "a a a a. b."⟩] ⟨"d", 1, "a a a a. b."⟩
    rfl (by decide)

/-! ## Claim C3 -/

/-- C3, counterexample.  `similarity_search` with `k = 0` does not
return an empty sequence: `limit or settings.knn_k` treats `0` as falsy,
so the call falls back to the default width and, on a one-row store,
returns that row — also violating `length ≤ k` for `k = 0`. -/
theorem c3_counterexample :
    similarity_search (fun _ => 0) 8 [⟨"d", 0, "c1", some [("authors", "X")]⟩] (some 0)
      = [⟨"d", 0, "c1", 1, [("authors", "X")]⟩] ∧
    ¬((similarity_search (fun _ => 0) 8 [⟨"d", 0, "c1", some [("authors", "X")]⟩]
        (some 0)).length ≤ 0) := by
  constructor
  · simp [similarity_search, similaritySql, shapeRow]
  · simp [similarity_search, similaritySql, shapeRow]

/-- C3 (amended): `k = 0` is treated like an unset limit and falls back
to the configured default width `knn_k`; for every `k ≥ 1` the result
has length at most `k`; the result is always ordered descending by
similarity score (`1 − distance`); and a `k` at least the store size
returns every stored chunk (as a permutation of the shaped store). -/
theorem c3_similarity_search_shape :
    ∀ (dist : StoredRow → ℚ) (knnK : Nat) (store : List StoredRow) (k : Nat),
      (similarity_search dist knnK store (some 0)
        = similarity_search dist knnK store none) ∧
      (∀ lim? : Option Nat,
        (similarity_search dist knnK store lim?).Pairwise fun a b => b.score ≤ a.score) ∧
      (1 ≤ k → (similarity_search dist knnK store (some k)).length ≤ k) ∧
      (1 ≤ k → store.length ≤ k →
        (similarity_search dist knnK store (some k)).Perm (store.map (shapeRow dist))) := by
  intro dist knnK store k
  refine ⟨by simp [similarity_search], ?_, ?_, ?_⟩
  · intro lim?
    refine List.Pairwise.map _ ?_
      (((List.sorted_insertionSort (rowLE dist) store).sublist
        (List.take_sublist _ _)) : List.Pairwise (rowLE dist) _)
    intro a b hab
    exact sub_le_sub_left hab 1
  · intro hk
    have hne : ¬(k = 0) := by omega
    simp only [similarity_search, similaritySql]
    rw [if_neg hne]
    simp only [List.length_map, List.length_take]
    omega
  · intro hk hlen
    have hne : ¬(k = 0) := by omega
    have hlen2 : (List.insertionSort (rowLE dist) store).length ≤ k := by
      rw [(List.perm_insertionSort (rowLE dist) store).length_eq]
      exact hlen
    simp only [similarity_search, similaritySql]
    rw [if_neg hne, List.take_of_length_le hlen2]
    exact (List.perm_insertionSort (rowLE dist) store).map (shapeRow dist)

/-- Witness for `c3_similarity_search_shape` on a one-row store with
`k = 2`. -/
theorem c3_witness :
    ((similarity_search (fun _ => 0) 8 [⟨"d", 0, "c1", none⟩] (some 2)).length ≤ 2) ∧
    ((similarity_search (fun _ => 0) 8 [⟨"d", 0, "c1", none⟩] (some 2)).Perm
      ([⟨"d", 0, "c1", none⟩].map (shapeRow (fun _ => 0)))) :=
  ⟨(c3_similarity_search_shape (fun _ => 0) 8 [⟨"d", 0, "c1", none⟩] 2).2.2.1 (by decide),
    (c3_similarity_search_shape (fun _ => 0) 8 [⟨"d", 0, "c1", none⟩] 2).2.2.2 (by decide)
      (by decide)⟩

/-! ## Claim C4 -/

/-- C4, counterexample.  A response that is valid JSON but not the
expected structure — here the JSON array `[]` — is not recovered: the
attribute access `data.get` raises `AttributeError`, which is not
caught (only `json.JSONDecodeError` is) and propagates to the caller
instead of falling back to the original order. -/
theorem c4_counterexample :
    rerank true [⟨"a", 0, "ca", 1, []⟩] (.ok (.list [])) = .error .attributeError := rfl

/-- C4 (amended): only a response that fails `json.loads` itself
(syntactically invalid JSON) is recovered locally, returning the
candidates in their original order without raising; a response that
parses as JSON but is not an object raises an uncaught `AttributeError`
to the caller (and, being outside the retryable exception tuple, passes
through the retry wrapper unchanged). -/
theorem c4_decode_error_recovered_only :
    (∀ (needsRerank : Bool) (cands : List RerankCandidate),
      rerank needsRerank cands (.error ()) = .ok cands) ∧
    (∀ (cands : List RerankCandidate) (v : PyVal),
      cands ≠ [] → (∀ kvs, v ≠ .dict kvs) →
      rerank true cands (.ok v) = .error .attributeError) := by
  constructor
  · intro needsRerank cands
    simp only [rerank]
    split
    · rfl
    · rfl
  · intro cands v hne hnd
    obtain ⟨c, cs, rfl⟩ : ∃ c cs, cands = c :: cs := by
      cases cands with
      | nil => exact absurd rfl hne
      | cons c cs => exact ⟨c, cs, rfl⟩
    cases v with
    | dict kvs => exact absurd rfl (hnd kvs)
    | null => rfl
    | bool b => rfl
    | num q => rfl
    | str s => rfl
    | list xs => rfl

/-- Witness for `c4_decode_error_recovered_only`: the decode-failure
branch at a concrete candidate list, and the uncaught error on a JSON
number response. -/
theorem c4_witness :
    rerank true [⟨"a", 0, "ca", 1, []⟩] (.error ()) = .ok [⟨"a", 0, "ca", 1, []⟩] ∧
    rerank true [⟨"a", 0, "ca", 1, []⟩] (.ok (.num 3)) = .error .attributeError :=
  ⟨c4_decode_error_recovered_only.1 true [⟨"a", 0, "ca", 1, []⟩],
    c4_decode_error_recovered_only.2 [⟨"a", 0, "ca", 1, []⟩] (.num 3) (by decide)
      (fun kvs h => PyVal.noConfusion h)⟩

/-! ## Claim C5 -/

theorem min_cap_pow (delay base maxD : ℚ) (hb : 1 ≤ base) (hM : 0 ≤ maxD) (n : Nat) :
    min (min (delay * base) maxD * base ^ (n + 1)) maxD
      = min (delay * base ^ (n + 2)) maxD := by
  have hbn : (0 : ℚ) ≤ base ^ (n + 1) := by positivity
  rw [min_mul_of_nonneg _ _ hbn, min_assoc,
    min_eq_right (le_mul_of_one_le_right hM (one_le_pow₀ hb))]
  congr 1
  ring

/-- When every attempt fails with a retryable error, the loop performs
one capped-exponential sleep per remaining retry and re-raises the error
of the final attempt.  The sleep before the `j`-th retry (0-based `j`)
is `min(delay · base^(j+1), maxDelay)`: the delay is updated before
being slept. -/
theorem retryGo_allfail {α : Type} (errs : Nat → Nat) (base maxD : ℚ)
    (hb : 1 ≤ base) (hM : 0 ≤ maxD) :
    ∀ (fuel attempt : Nat) (delay : ℚ),
      retryGo (α := α) (fun k => .exc true (errs k)) base maxD attempt (fuel + 1) delay
        = .raised (errs (attempt + fuel))
            ((List.range fuel).map fun j => min (delay * base ^ (j + 1)) maxD) := by
  intro fuel
  induction fuel with
  | zero =>
    intro attempt delay
    simp [retryGo]
  | succ fuel ih =>
    intro attempt delay
    have hstep : retryGo (α := α) (fun k => .exc true (errs k)) base maxD attempt
        (fuel + 1 + 1) delay
        = (retryGo (fun k => .exc true (errs k)) base maxD (attempt + 1) (fuel + 1)
            (min (delay * base) maxD)).withSleep (min (delay * base) maxD) := by
      conv_lhs => rw [retryGo]
      simp only []
      rw [if_neg (show ¬(fuel + 1 = 0) by omega)]
    rw [show fuel.succ + 1 = fuel + 1 + 1 from rfl, hstep]
    rw [ih (attempt + 1) (min (delay * base) maxD)]
    simp only [RetryResult.withSleep]
    rw [List.range_succ_eq_map]
    simp only [List.map_cons, List.map_map]
    congr 1
    · congr 1
      omega
    · congr 1
      · rw [zero_add, pow_one]
      · refine List.map_congr_left fun j hj => ?_
        simp only [Function.comp]
        exact min_cap_pow delay base maxD hb hM j

/-- C5 (amended): the `k`-th back-off sleep (k = 1, 2, ...) equals
`min(initialDelay · exponentialBase^k, maxDelay)` — one factor of the
base more than the claim states, because `delay` is multiplied and
capped before the sleep.  With the defaults the first retry therefore
sleeps 2s, not 1s.  After the budget of `maxRetries` extra attempts the
error of the last attempt is re-raised, and a non-retryable error
propagates immediately with no sleep. -/
theorem c5_backoff_schedule {α : Type} :
    ∀ (maxRetries : Nat) (initialDelay base maxDelay : ℚ) (errs : Nat → Nat)
      (f : Nat → CallOutcome α) (e : Nat),
      1 ≤ base → 0 ≤ maxDelay →
      (retry_with_exponential_backoff maxRetries initialDelay base maxDelay
          (fun k => (.exc true (errs k) : CallOutcome α))
        = .raised (errs maxRetries)
            ((List.range maxRetries).map fun j =>
              min (initialDelay * base ^ (j + 1)) maxDelay)) ∧
      (f 0 = .exc false e →
        retry_with_exponential_backoff maxRetries initialDelay base maxDelay f
          = .raised e []) := by
  intro maxRetries initialDelay base maxD errs f e hb hM
  constructor
  · have h := retryGo_allfail (α := α) errs base maxD hb hM maxRetries 0 initialDelay
    simpa [retry_with_exponential_backoff] using h
  · intro hf
    simp [retry_with_exponential_backoff, retryGo, hf]

/-- C5, counterexample.  With the default parameters
(`max_retries = 3`, `initial_delay = 1`, `base = 2`, `max_delay = 60`)
and every attempt failing retryably, the sleeps are `[2, 4, 8]` — not
the `[min(1·2⁰,60), min(1·2¹,60), min(1·2²,60)] = [1, 2, 4]` the claim
predicts: the first retry does not sleep `initialDelay`. -/
theorem c5_counterexample :
    retry_with_exponential_backoff 3 1 2 60
        (fun k => (CallOutcome.exc true k : CallOutcome Unit))
      = .raised 3 [2, 4, 8] ∧
    ([2, 4, 8] : List ℚ)
      ≠ [min ((1 : ℚ) * 2 ^ 0) 60, min (1 * 2 ^ 1) 60, min (1 * 2 ^ 2) 60] := by
  constructor
  · show retryGo _ 2 60 0 (3 + 1) 1 = _
    norm_num [retryGo, RetryResult.withSleep]
  · norm_num

/-- Witness for `c5_backoff_schedule` at concrete parameters. -/
theorem c5_witness :
    (retry_with_exponential_backoff 2 1 2 60
        (fun k => (CallOutcome.exc true (k + 10) : CallOutcome Unit))
      = .raised 12 ((List.range 2).map fun j => min ((1 : ℚ) * 2 ^ (j + 1)) 60)) ∧
    (retry_with_exponential_backoff 2 1 2 60
        (fun _ => (CallOutcome.exc false 7 : CallOutcome Unit)) = .raised 7 []) := by
  constructor
  · have h := (c5_backoff_schedule (α := Unit) 2 1 2 60 (fun k => k + 10)
      (fun _ => .exc false 7) 7 (by norm_num) (by norm_num)).1
    simpa using h
  · exact (c5_backoff_schedule (α := Unit) 2 1 2 60 (fun k => k + 10)
      (fun _ => .exc false 7) 7 (by norm_num) (by norm_num)).2 rfl

/-! ## Claim C6 -/

/-- Whenever `rerank` returns normally, its output is a permutation of
its input: every branch returns either the input itself or a sort of
it. -/
theorem rerank_ok_perm {needsRerank : Bool} {cands out : List RerankCandidate}
    {parsed : Except Unit PyVal} (h : rerank needsRerank cands parsed = .ok out) :
    out.Perm cands := by
  simp only [rerank] at h
  split at h
  · injection h with h2
    subst h2
    exact List.Perm.refl _
  · split at h
    · injection h with h2
      subst h2
      exact List.Perm.refl _
    · cases hm : scoreMapOfData ‹PyVal› with
      | error e =>
        rw [hm] at h
        exact Except.noConfusion h
      | ok m =>
        rw [hm] at h
        injection h with h2
        subst h2
        exact List.perm_insertionSort _ _

/-- Filtering to one key value commutes with a single ordered insert:
all elements skipped before the insertion point have a strictly larger
key than the inserted element, so they never share its key value. -/
theorem orderedInsert_filter (m : ScoreMap) (q : ℚ) (a : RerankCandidate)
    (l : List RerankCandidate) :
    (List.orderedInsert (candGE m) a l).filter (fun c => resolvedScore m c == q)
      = if resolvedScore m a = q
          then a :: l.filter (fun c => resolvedScore m c == q)
          else l.filter (fun c => resolvedScore m c == q) := by
  induction l with
  | nil =>
    by_cases h : resolvedScore m a = q <;>
      simp [List.orderedInsert, List.filter_cons, beq_iff_eq, h]
  | cons b l ih =>
    simp only [List.orderedInsert]
    split
    · by_cases h : resolvedScore m a = q <;>
        simp [List.filter_cons, beq_iff_eq, h]
    · rename_i hab
      have hlt : resolvedScore m a < resolvedScore m b := not_le.mp hab
      by_cases ha : resolvedScore m a = q <;> by_cases hb2 : resolvedScore m b = q
      · exact absurd (ha.trans hb2.symm) (ne_of_lt hlt)
      · simp [List.filter_cons, beq_iff_eq, ha, hb2, ih]
      · simp [List.filter_cons, beq_iff_eq, ha, hb2, ih]
      · simp [List.filter_cons, beq_iff_eq, ha, hb2, ih]

/-- Stability of the sort used by `rerank`: restricted to any one
resolved-score value, the sorted output lists the candidates in their
original relative order. -/
theorem insertionSort_filter (m : ScoreMap) (q : ℚ) (l : List RerankCandidate) :
    (List.insertionSort (candGE m) l).filter (fun c => resolvedScore m c == q)
      = l.filter (fun c => resolvedScore m c == q) := by
  induction l with
  | nil => rfl
  | cons a l ih =>
    simp only [List.insertionSort]
    rw [orderedInsert_filter]
    by_cases h : resolvedScore m a = q <;>
      simp [List.filter_cons, beq_iff_eq, h, ih]

/-- C6: with reranking enabled, a non-empty candidate list and a
successfully processed model response, `rerank` returns a permutation of
the input (same length, same members), ordered descending by resolved
score — the score from the model for the key of the candidate when
present, else its original similarity score — and ties preserve the
pre-rerank relative order (the output filtered to any one score value
equals the input so filtered). -/
theorem c6_rerank_stable_descending :
    ∀ (cands out : List RerankCandidate) (data : PyVal) (m : ScoreMap),
      cands ≠ [] →
      scoreMapOfData data = .ok m →
      rerank true cands (.ok data) = .ok out →
      out.Perm cands ∧ out.length = cands.length ∧
      out.Pairwise (fun a b => resolvedScore m b ≤ resolvedScore m a) ∧
      (∀ q : ℚ, out.filter (fun c => resolvedScore m c == q)
        = cands.filter (fun c => resolvedScore m c == q)) := by
  intro cands out data m hne hm h
  have hout : out = List.insertionSort (candGE m) cands := by
    obtain ⟨c, cs, rfl⟩ : ∃ c cs, cands = c :: cs := by
      cases cands with
      | nil => exact absurd rfl hne
      | cons c cs => exact ⟨c, cs, rfl⟩
    simp only [rerank, List.isEmpty_cons, Bool.not_true, Bool.false_or] at h
    rw [hm] at h
    injection h with h2
    exact h2.symm
  subst hout
  exact ⟨List.perm_insertionSort _ _, (List.perm_insertionSort _ _).length_eq,
    List.sorted_insertionSort (candGE m) cands, fun q => insertionSort_filter m q cands⟩

/-- Witness for `c6_rerank_stable_descending`: with no ranking entries
every candidate resolves to its own similarity score; the sort reverses
`[score 1, score 2]` into `[score 2, score 1]`, a sorted permutation. -/
theorem c6_witness :
    ([⟨"b", 1, "cb", 2, []⟩, ⟨"a", 0, "ca", 1, []⟩] : List RerankCandidate).Perm
      [⟨"a", 0, "ca", 1, []⟩, ⟨"b", 1, "cb", 2, []⟩] ∧
    ([⟨"b", 1, "cb", 2, []⟩, ⟨"a", 0, "ca", 1, []⟩] : List RerankCandidate).Pairwise
      (fun a b => resolvedScore [] b ≤ resolvedScore [] a) :=
  ⟨(c6_rerank_stable_descending [⟨"a", 0, "ca", 1, []⟩, ⟨"b", 1, "cb", 2, []⟩]
      [⟨"b", 1, "cb", 2, []⟩, ⟨"a", 0, "ca", 1, []⟩] (.dict []) [] (by decide) rfl rfl).1,
    (c6_rerank_stable_descending [⟨"a", 0, "ca", 1, []⟩, ⟨"b", 1, "cb", 2, []⟩]
      [⟨"b", 1, "cb", 2, []⟩, ⟨"a", 0, "ca", 1, []⟩] (.dict []) [] (by decide) rfl rfl).2.2.1⟩

/-! ## Claim C8 -/

/-- C8: the identity laws of `rerank`.  An empty candidate list returns
empty (whatever the rerank flag and response), and with reranking
disabled by configuration any candidate list is returned unchanged in
its original order; the query never influences the returned value in
these branches. -/
theorem c8_identity_laws :
    (∀ (needsRerank : Bool) (parsed : Except Unit PyVal),
      rerank needsRerank [] parsed = .ok []) ∧
    (∀ (cands : List RerankCandidate) (parsed : Except Unit PyVal),
      rerank false cands parsed = .ok cands) := by
  constructor
  · intro needsRerank parsed
    simp [rerank]
  · intro cands parsed
    simp [rerank]

/-! ## Claim C10 -/

/-- C10: `embed_texts` on an empty input list returns the empty list
without invoking the embedding provider (the flag is `false`) and
without requiring any embedding credential (`hasCred` is arbitrary):
the empty-input return precedes the client construction. -/
theorem c10_embed_empty :
    ∀ (hasCred : Bool) (respData : List (Nat × List ℚ)),
      embed_texts hasCred respData [] = (.ok [], false) := by
  intro hasCred respData
  rfl

/-! ## Claim C9 -/

/-- Specification-side reading of the dedup step ("deduplicated by a key
derived from (authors, year) keeping the first occurrence"): keep the
first citation of each key and delete all its later duplicates. -/
def dedupByFirst : List Citation → List Citation
  | [] => []
  | c :: rest => c :: dedupByFirst (rest.filter fun x => refKey x != refKey c)
termination_by l => l.length
decreasing_by
  simp only [List.length_cons]
  have := List.length_filter_le (fun x => refKey x != refKey c) rest
  omega

/-- The seen-set loop of `_build_harvard_references` computes exactly
the first-occurrence dedup: citations whose key is already in `seen`
behave like deleted duplicates. -/
theorem collectRefs_eq :
    ∀ (cits : List Citation) (seen : List String),
      collectRefs seen cits
        = (dedupByFirst (cits.filter fun c => decide (refKey c ∉ seen))).map
            Citation.reference := by
  intro cits
  induction cits with
  | nil =>
    intro seen
    simp [collectRefs, dedupByFirst]
  | cons c rest ih =>
    intro seen
    by_cases h : refKey c ∈ seen
    · rw [show collectRefs seen (c :: rest) = collectRefs seen rest from by
        simp [collectRefs, h]]
      rw [ih seen]
      congr 2
      simp [List.filter_cons, h]
    · rw [show collectRefs seen (c :: rest)
          = c.reference :: collectRefs (refKey c :: seen) rest from by
        simp [collectRefs, h]]
      rw [ih (refKey c :: seen)]
      have hfc : (c :: rest).filter (fun x => decide (refKey x ∉ seen))
          = c :: rest.filter (fun x => decide (refKey x ∉ seen)) := by
        simp [List.filter_cons, h]
      rw [hfc]
      rw [show dedupByFirst (c :: rest.filter fun x => decide (refKey x ∉ seen))
          = c :: dedupByFirst ((rest.filter fun x => decide (refKey x ∉ seen)).filter
              fun x => refKey x != refKey c) from by rw [dedupByFirst]]
      rw [List.map_cons]
      have h3 : (rest.filter fun x => decide (refKey x ∉ refKey c :: seen))
          = ((rest.filter fun x => decide (refKey x ∉ seen)).filter
              fun x => refKey x != refKey c) := by
        rw [List.filter_filter]
        refine List.filter_congr fun x _ => ?_
        by_cases h1 : refKey x = refKey c <;> by_cases h2 : refKey x ∈ seen <;>
          simp [h1, h2]
      rw [h3]

/-- C9: `_build_harvard_references` is pure — in this effect-free
embedding two calls on the same list are definitionally the same
string, and the Python body touches only local state — it returns the
empty string on an empty citation list, and otherwise renders, under
the bibliography header, exactly the references of the
first-occurrence-per-(authors, year)-key citations, sorted ascending by
the rendered reference string. -/
theorem c9_reference_list_spec :
    ∀ cits : List Citation, ∃ entries : List String,
      build_harvard_references cits
        = (if cits.isEmpty then ""
           else "\n\n**Literaturverzeichnis:**\n\n" ++ pyJoinSep "\n\n" entries) ∧
      entries.Perm ((dedupByFirst cits).map Citation.reference) ∧
      entries.Pairwise strLE ∧
      build_harvard_references cits = build_harvard_references cits := by
  intro cits
  refine ⟨List.insertionSort strLE (collectRefs [] cits), ?_, ?_, ?_, rfl⟩
  · by_cases h : cits.isEmpty <;> simp [build_harvard_references, h]
  · have h := collectRefs_eq cits []
    have hfil : (cits.filter fun c => decide (refKey c ∉ ([] : List String))) = cits := by
      simp
    rw [hfil] at h
    rw [← h]
    exact List.perm_insertionSort strLE _
  · exact List.sorted_insertionSort strLE _

/-! ## Claim C7 -/

theorem toRetrieved_toCandidate (c : RetrievedChunk) : toRetrieved (toCandidate c) = c :=
  rfl

theorem map_toRetrieved_toCandidate (l : List RetrievedChunk) :
    (l.map toCandidate).map toRetrieved = l := by
  rw [List.map_map]
  exact List.map_id l

/-- C7: in both orchestration flows — question answering and section
generation — when retrieval is non-empty and `rerank` returns, the
`sources` field of the result is the full reranked list (a permutation
of everything retrieved), even though generation receives only the
strict subset `ranked[:3]` (question answering) or
`ranked[:num_sources]` (section generation), recorded here as the
second component of each result. -/
theorem c7_sources_full_reranked :
    ∀ (retrieved : List RetrievedChunk) (needsRerank : Bool) (parsed : Except Unit PyVal)
      (genText : String) (ranked : List RerankCandidate) (numSources : Nat),
      retrieved ≠ [] →
      rerank needsRerank (retrieved.map toCandidate) parsed = .ok ranked →
      (answer_question retrieved needsRerank parsed genText
          = .ok ({ text := genText, sources := ranked.map toRetrieved },
              (ranked.take 3).map toContext) ∧
        (ranked.map toRetrieved).Perm retrieved) ∧
      (generate_scientific_section numSources retrieved needsRerank parsed genText
          = .ok (ScientificText.mk genText
                ((List.enumFrom 1 (ranked.take numSources)).map (fun p => mkCitation p.2))
                (ranked.map toRetrieved)
                (build_harvard_references
                  ((List.enumFrom 1 (ranked.take numSources)).map (fun p => mkCitation p.2))),
              List.enumFrom 1 (ranked.take numSources))) := by
  intro retrieved n parsed gen ranked ns hne hr
  have hPerm : (ranked.map toRetrieved).Perm retrieved := by
    have h1 : ranked.Perm (retrieved.map toCandidate) := rerank_ok_perm hr
    have h2 := h1.map toRetrieved
    rwa [map_toRetrieved_toCandidate] at h2
  have hempty : retrieved.isEmpty = false := by
    cases retrieved with
    | nil => exact absurd rfl hne
    | cons _ _ => rfl
  refine ⟨⟨?_, hPerm⟩, ?_⟩
  · simp only [answer_question, hempty, Bool.false_eq_true, if_false]
    rw [hr]
    rfl
  · simp only [generate_scientific_section, hempty, Bool.false_eq_true, if_false]
    rw [hr]
    rfl

/-- Witness for `c7_sources_full_reranked`: a one-chunk retrieval with
reranking disabled. -/
theorem c7_witness :
    answer_question [⟨"a", 0, "ca", 1, []⟩] false (.error ()) "ans"
        = .ok ({ text := "ans", sources := [⟨"a", 0, "ca", 1, []⟩] },
            [⟨"a", 0, "ca"⟩]) ∧
      (([⟨"a", 0, "ca", 1, []⟩] : List RerankCandidate).map toRetrieved).Perm
        [⟨"a", 0, "ca", 1, []⟩] :=
  (c7_sources_full_reranked [⟨"a", 0, "ca", 1, []⟩] false (.error ()) "ans"
    [⟨"a", 0, "ca", 1, []⟩] 1 (by decide) rfl).1

end RagAgent
